import Mathlib

/-!
Formal model of the fiber-photometry processing pipeline in `routine/`
(`utilities.py`, `ts_alignment.py`, `processing.py`, `oo_interface.py`).
Each Python function that the verified properties mention is translated into
an executable Lean definition over explicit data types: dataframes become
lists of rows, machine floats become rationals, raised exceptions become
`Except` error values, and the external numerical routines of scipy and
sklearn become oracle parameters.  Theorems below the definitions settle the
spec claims against these models.
-/

namespace FP

/-- Column dtype of a pandas column after the best-effort numeric coercion
performed by `df_to_numeric` (`utilities.py`): columns whose cells all parse
as numbers become integer or float columns, boolean columns stay boolean and
everything else stays `object` (text). -/
inductive Dtype
  | intD
  | floatD
  | objD
  | boolD
deriving DecidableEq, Repr

/-- A raw timestamp source as seen by `load_ts` (`utilities.py` lines 33-67):
the per-column dtypes after the initial `df_to_numeric` coercion, plus
whether cell (0,0) equals the string DigitalIOName (only inspected in the
five-column branch, where that header row is stripped). -/
structure TsSource where
  dtypes : List Dtype
  firstCellDigital : Bool
deriving DecidableEq, Repr

/-- Classification result of `load_ts`: the inferred `ts_type` tag and
whether a DigitalIOName header row was stripped from the source. -/
structure LoadedTs where
  tsType : String
  headerStripped : Bool
deriving DecidableEq, Repr

/-- The single error `load_ts` can raise: the ValueError with message
Don t know how to handle TS (the unrecognized-format error of the spec). -/
inductive TsError
  | unrecognizedFormat
deriving DecidableEq, Repr

/-- The `ts_type` string for keydown event logs. -/
def tyKeydown : String := "ts_keydown"

/-- The `ts_type` string for behavior-frame timestamp logs. -/
def tyBehav : String := "ts_behav"

/-- The `ts_type` string for behavior-frame event logs. -/
def tyEvents : String := "ts_events"

/-- The `ts_type` string for hardware digital-IO event logs. -/
def tyArduino : String := "ts_arduino"

/-- The `ts_type` string for the canonical frame-timestamp source, tested for
in `align_ts`; note `load_ts` itself never returns this tag. -/
def tyFp : String := "ts_fp"

/-- `pandas.api.types.is_object_dtype` on the model dtypes. -/
def is_object_dtype : Dtype → Bool
  | .objD => true
  | _ => false

/-- `pandas.api.types.is_float_dtype` on the model dtypes. -/
def is_float_dtype : Dtype → Bool
  | .floatD => true
  | _ => false

/-- `pandas.api.types.is_integer_dtype` on the model dtypes. -/
def is_integer_dtype : Dtype → Bool
  | .intD => true
  | _ => false

/-- `pandas.api.types.is_bool_dtype` on the model dtypes. -/
def is_bool_dtype : Dtype → Bool
  | .boolD => true
  | _ => false

/-- Model of `load_ts` (`utilities.py` lines 33-67).  A two-column source is
classified by the dtypes of its two columns; a five-column source has an
optional DigitalIOName header row stripped and is tagged as a hardware
digital-IO log; any other column count raises the ValueError.  Column
renaming and the event-string construction of the five-column branch carry
no information relevant to classification and are not tracked. -/
def load_ts (src : TsSource) : Except TsError LoadedTs :=
  match src.dtypes with
  | [c0, c1] =>
    if is_object_dtype c0 ∧ is_float_dtype c1 then
      .ok ⟨tyKeydown, false⟩
    else if is_integer_dtype c0 ∧ is_float_dtype c1 then
      .ok ⟨tyBehav, false⟩
    else if is_integer_dtype c0 ∧ (is_object_dtype c1 ∨ is_bool_dtype c1) then
      .ok ⟨tyEvents, false⟩
    else
      .error .unrecognizedFormat
  | [_, _, _, _, _] =>
    .ok ⟨tyArduino, src.firstCellDigital⟩
  | _ => .error .unrecognizedFormat

/-- Whether `load_ts` succeeds on a source (no unrecognized-format error). -/
def loadsOk (src : TsSource) : Bool :=
  match load_ts src with
  | .ok _ => true
  | .error _ => false

/-- Errors that abort `align_ts` during its source-classification loop
(`ts_alignment.py` lines 19-30): a format error propagated from `load_ts`,
or the Multiple-sources ValueError raised when a canonical type tag is
already a key of `ts_dict`. -/
inductive AlignError
  | loadFailed (e : TsError)
  | multipleCanonical (tsType : String)
deriving DecidableEq, Repr

/-- The source-classification loop of `align_ts` (`ts_alignment.py` lines
19-30), which runs before any merge step, so an error here aborts `align_ts`
with no partial merge.  Each named raw source is passed to `load_ts`; a
source whose type tag is `ts_behav` or `ts_fp` is stored in `ts_dict` under
that tag after checking that the tag is not already a key (otherwise the
Multiple-supplied ValueError is raised); every other source is stored under
its own name.  The Python dict is modelled as an association list of keys
and stored type tags; key membership coincides with the Python dict and the
duplicate check only inspects keys. -/
def classify_sources : List (String × TsSource) → List (String × String) →
    Except AlignError (List (String × String))
  | [], acc => .ok acc
  | (dname, src) :: rest, acc =>
    match load_ts src with
    | .error e => .error (.loadFailed e)
    | .ok loaded =>
      if loaded.tsType = tyBehav ∨ loaded.tsType = tyFp then
        if (acc.lookup loaded.tsType).isSome then
          .error (.multipleCanonical loaded.tsType)
        else
          classify_sources rest (acc ++ [(loaded.tsType, loaded.tsType)])
      else
        classify_sources rest (acc ++ [(dname, loaded.tsType)])

/-- Number of sources in the input mapping that `load_ts` classifies with
the given type tag. -/
def countClassified (srcs : List (String × TsSource)) (t : String) : ℕ :=
  (srcs.filter (fun p =>
    match load_ts p.2 with
    | .ok loaded => loaded.tsType == t
    | .error _ => false)).length

/-- Contribution of one source to `countClassified`. -/
def countOne (src : TsSource) (t : String) : ℕ :=
  match load_ts src with
  | .ok loaded => if loaded.tsType = t then 1 else 0
  | .error _ => 0

/-- Contribution of an association list to the canonical-key indicator:
one when the key is present, zero otherwise. -/
def keyInd (acc : List (String × String)) (t : String) : ℕ :=
  if (acc.lookup t).isSome then 1 else 0

/-- Ascending sorted copy of a list of rationals. -/
def sortQ (l : List ℚ) : List ℚ :=
  List.insertionSort (fun p q => p ≤ q) l

/-- pandas Series.median on the rational model: middle element of the
sorted values for odd length, mean of the two middle elements for even
length.  The empty case (NaN in pandas) is given the junk value zero; no
theorem depends on it. -/
def median (l : List ℚ) : ℚ :=
  let s := sortQ l
  let n := s.length
  if n = 0 then 0
  else if n % 2 = 1 then s.getD (n / 2) 0
  else (s.getD (n / 2 - 1) 0 + s.getD (n / 2) 0) / 2

/-- The biexponential curve `exp2` (`utilities.py` lines 12-13).  The
transcendental `np.exp` is passed as an explicit function parameter `expf`,
since real exponentiation has no executable rational representation; every
statement proved about the fit is uniform in `expf`. -/
def exp2 (expf : ℚ → ℚ) (x a b c d e : ℚ) : ℚ :=
  a * expf (b * x) + c * expf (d * x) + e

/-- The five curve parameters (a, b, c, d, e) of `exp2`. -/
abbrev FitParams : Type := ℚ × ℚ × ℚ × ℚ × ℚ

/-- Evaluate `exp2` at every point of the x grid with fixed parameters. -/
def exp2_curve (expf : ℚ → ℚ) (p : FitParams) (x : List ℚ) : List ℚ :=
  x.map (fun xi => exp2 expf xi p.1 p.2.1 p.2.2.1 p.2.2.2.1 p.2.2.2.2)

/-- Initial-guess parameters of `fit_exp2` (`processing.py` lines 75-77):
`dmax` and `dmin` are the medians of the first and last (up to) 50 samples,
`drg` their difference, and the guess is (drg, -10, drg, 0.1, dmin - drg).
Python `a[-50:]` keeps the whole series when it is shorter than 50, matched
here by dropping `length - 50` elements with truncated subtraction. -/
def fit_p0 (a : List ℚ) : FitParams :=
  let dmax := median (a.take 50)
  let dmin := median (a.drop (a.length - 50))
  let drg := dmax - dmin
  (drg, -10, drg, 1/10, dmin - drg)

/-- The warning message emitted by `fit_exp2` when the curve fit raises. -/
def fitFailWarning : String := "Biexponential fit failed"

/-- Model of `fit_exp2` (`processing.py` lines 74-83).  scipy `curve_fit` is
an oracle parameter receiving the initial guess and returning the optimal
parameters, or `none` when the fit raises (the Python code catches every
exception).  On failure the function warns and takes the initial guess as
the parameters; either way it returns the curve evaluated on the x grid, so
no exception propagates.  The first component collects the messages passed
to `warnings.warn`. -/
def fit_exp2 (expf : ℚ → ℚ) (curve_fit : FitParams → Option FitParams)
    (a : List ℚ) (x : List ℚ) : List String × List ℚ :=
  let p0 := fit_p0 a
  match curve_fit p0 with
  | some popt => ([], exp2_curve expf popt x)
  | none => ([fitFailWarning], exp2_curve expf p0 x)

/-- One raw sample row of the photometry data file: frame counter, device
timestamp (`SystemTimestamp`) and light-source code (`LedState`).  The
per-region intensity columns ride along unchanged through `load_data` and
play no role in row selection, so they are not tracked. -/
structure SampleRow where
  frameCounter : ℤ
  systemTimestamp : ℚ
  ledState : ℤ
deriving DecidableEq, Repr

/-- A sample row tagged with its signal label, the `signal` column that
`load_data` computes from the light-source mapping. -/
abbrev TaggedRow : Type := SampleRow × String

/-- Ordering of tagged rows by device timestamp, the `sort_values` key used
by `cut_df`. -/
def tsLe (a b : TaggedRow) : Prop :=
  a.1.systemTimestamp ≤ b.1.systemTimestamp

instance : DecidableRel tsLe :=
  fun a b => inferInstanceAs (Decidable (a.1.systemTimestamp ≤ b.1.systemTimestamp))

instance : IsTotal TaggedRow tsLe :=
  ⟨fun a b => le_total a.1.systemTimestamp b.1.systemTimestamp⟩

instance : IsTrans TaggedRow tsLe :=
  ⟨fun _ _ _ => le_trans⟩

/-- Model of `cut_df` (`utilities.py` lines 8-9): sort by device timestamp
and keep the first `nrow` rows.  pandas `sort_values` defaults to an
unstable sort; the model fixes a stable insertion sort, one admissible
outcome, and the theorems use only order-robust consequences (row counts,
membership, and that every retained timestamp is at most every dropped
timestamp). -/
def cut_df (df : List TaggedRow) (nrow : ℕ) : List TaggedRow :=
  (List.insertionSort tsLe df).take nrow

/-- Rows surviving the discard filter and the light-source mapping of
`load_data` (`utilities.py` lines 21-22), tagged with their signal label: a
row with frame counter at most `discard_nfm` is dropped, and a row whose
`LedState` has no entry in the mapping receives a null `signal` and is
dropped by the subsequent `groupby`, which ignores null keys. -/
def mappedRows (rows : List SampleRow) (discard_nfm : ℤ)
    (led_dict : List (ℤ × String)) : List TaggedRow :=
  (rows.filter (fun r => discard_nfm < r.frameCounter)).filterMap
    (fun r => (led_dict.lookup r.ledState).map (fun s => (r, s)))

/-- The distinct signal labels present after mapping: the `groupby` keys. -/
def sigLabels (rows : List SampleRow) (discard_nfm : ℤ)
    (led_dict : List (ℤ × String)) : List String :=
  ((mappedRows rows discard_nfm led_dict).map Prod.snd).dedup

/-- The rows of one signal group of `load_data`. -/
def sigGroup (rows : List SampleRow) (discard_nfm : ℤ)
    (led_dict : List (ℤ × String)) (l : String) : List TaggedRow :=
  (mappedRows rows discard_nfm led_dict).filter (fun p => p.2 == l)

/-- Minimum of a list of sizes, evaluated like the pandas Series min: the
running minimum over the values (zero only for the empty list, a case that
`load_data` never consumes). -/
def listMinNat : List ℕ → ℕ
  | [] => 0
  | x :: xs => xs.foldl min x

/-- `nfm`, the minimum signal-group size of `load_data`
(`utilities.py` line 23). -/
def minGroupSize (rows : List SampleRow) (discard_nfm : ℤ)
    (led_dict : List (ℤ × String)) : ℕ :=
  listMinNat
    ((sigLabels rows discard_nfm led_dict).map
      (fun l => (sigGroup rows discard_nfm led_dict l).length))

/-- Model of `load_data` (`utilities.py` lines 16-30): drop the discarded
leading frames, map light-source codes to signal labels, group by label and
trim every group to the minimum group size with `cut_df`.  The final region
rename only changes column names, never rows, and is not tracked. -/
def load_data (rows : List SampleRow) (discard_nfm : ℤ)
    (led_dict : List (ℤ × String)) : List TaggedRow :=
  (sigLabels rows discard_nfm led_dict).flatMap
    (fun l => cut_df (sigGroup rows discard_nfm led_dict l)
      (minGroupSize rows discard_nfm led_dict))

/-- Absolute value on rationals written executably, used as the distance of
the nearest-time join. -/
def absQ (q : ℚ) : ℚ :=
  if q < 0 then -q else q

/-- One row of the master table inside `align_ts` after the initial rename
(`ts_alignment.py` lines 11-17): the frame counter `fm_fp` and the
device-clock column `ts` (the renamed ComputerTimestamp, or the timestamp
merged in from a frame-timestamp file). -/
structure MasterRow where
  fm_fp : ℤ
  ts : ℚ
deriving DecidableEq, Repr

/-- The master table of `align_ts` as seen by the behavior-alignment step:
its rows, plus whether the `ts` column exists at all (the Python test is
whether `ts` is in `data.columns`; when it is absent the stored `ts`
values are meaningless and unused). -/
structure MasterTable where
  rows : List MasterRow
  hasTs : Bool
deriving DecidableEq, Repr

/-- One row of the behavior-timestamp source after `load_ts` renaming:
the behavior frame index `fm_behav` and its timestamp `ts`. -/
structure BehavRow where
  fm_behav : ℤ
  ts : ℚ
deriving DecidableEq, Repr

/-- One comparison step of the nearest-time scan: keep whichever of the
current best row and the candidate row lies closer in time to the probe,
preferring the current best on ties. -/
def nearestStep (t : ℚ) (best : Option MasterRow) (p : MasterRow) :
    Option MasterRow :=
  match best with
  | none => some p
  | some q => if absQ (t - p.ts) < absQ (t - q.ts) then some p else some q

/-- The match made by `pandas.merge_asof` with direction nearest for one
probe time: the master row whose `ts` is closest, the earliest such row on
ties — which on a master sorted ascending by `ts` (a precondition
`merge_asof` enforces) is the backward match pandas prefers.  Returns none
on an empty master. -/
def pickNearest (t : ℚ) (rows : List MasterRow) : Option MasterRow :=
  rows.foldl (nearestStep t) none

/-- The behavior-alignment step of `align_ts` (`ts_alignment.py` lines
44-62).  When the master has a `ts` column, each behavior row is matched by
the nearest-time join to a master frame, yielding the `fm_fp` each behavior
timestamp merges onto (the subsequent outer merge attaches the behavior
frames to the master by exactly these `fm_fp` keys).  When the master has
no `ts` column the step warns and leaves the master untouched, modelled by
`none`. -/
def align_behav (data : MasterTable) (ts_behav : List BehavRow) :
    Option (List (BehavRow × Option ℤ)) :=
  if data.hasTs then
    some (ts_behav.map
      (fun b => (b, (pickNearest b.ts data.rows).map MasterRow.fm_fp)))
  else
    none

/-- One row of the aligned master table as consumed by `pool_events`
(`utilities.py` lines 70-96): frame counter `fm_fp`, the merged event label
(null on frames without an event), and the per-region value columns as an
association list.  The function asserts the event column exists, which the
model builds in. -/
structure PoolRow where
  fm_fp : ℤ
  event : Option String
  vals : List (String × ℚ)
deriving DecidableEq, Repr

/-- A per-region value of an extracted event window.  `val` is a plain
number (an untouched copy when normalization is off, or the zero fill);
`scaled` records a value z-scored by the local pre-event baseline, keeping
the operands (original value, pre-event mean, pre-event sample variance):
the float result is (x - mean) divided by the square root of the variance,
which is irrational in general, so the model keeps it symbolic. -/
inductive NormVal
  | val (q : ℚ)
  | scaled (x mean svar : ℚ)
deriving DecidableEq, Repr

/-- One row of the `pool_events` output: the master frame, the frame offset
`fm_evt` from the event, the event label, the frame component of the event
id (the Python `evt_id` is the label and this frame stringified), and the
transformed region values. -/
structure EvtRow where
  fm_fp : ℤ
  fm_evt : ℤ
  event : String
  evt_fm : ℤ
  vals : List (String × NormVal)
deriving DecidableEq, Repr

/-- Running maximum of a list of integers, the pandas Series max; zero only
for the empty list, which `pool_events` never consumes (it requires an
event row). -/
def listMaxZ : List ℤ → ℤ
  | [] => 0
  | x :: xs => xs.foldl max x

/-- The maximum frame index of the master table (`data.fm_fp.max()`). -/
def max_fm (data : List PoolRow) : ℤ :=
  listMaxZ (data.map PoolRow.fm_fp)

/-- `numpy.clip` on an integer: raise to the lower bound, then cap at the
upper bound. -/
def clipz (v lo hi : ℤ) : ℤ :=
  min (max v lo) hi

/-- The rows of one event window (`utilities.py` lines 81-82): both offsets
are added to the event frame, clipped to [0, max frame], and rows with
`fm_fp` between the clipped bounds (inclusive) are selected. -/
def windowRows (data : List PoolRow) (evt_range : ℤ × ℤ) (e : PoolRow) :
    List PoolRow :=
  let mf := max_fm data
  let lo := clipz (e.fm_fp + evt_range.1) 0 mf
  let hi := clipz (e.fm_fp + evt_range.2) 0 mf
  data.filter (fun r => decide (lo ≤ r.fm_fp) && decide (r.fm_fp ≤ hi))

/-- pandas Series.mean on the rational model. -/
def sampleMean (l : List ℚ) : ℚ :=
  l.sum / (l.length : ℚ)

/-- pandas Series.std squared, i.e. the sample variance with one delta
degree of freedom: none when fewer than two values exist (pandas yields
NaN there, and NaN compares false against zero), else the sum of squared
deviations over (n - 1). -/
def sampleVar (l : List ℚ) : Option ℚ :=
  if l.length < 2 then none
  else some (((l.map (fun x => (x - sampleMean l) ^ 2)).sum) /
    ((l.length : ℚ) - 1))

/-- The pre-event values of one region inside a window: rows with negative
frame offset, projected to the region column. -/
def preVals (w : List PoolRow) (e : PoolRow) (roi : String) : List ℚ :=
  (w.filter (fun r => decide (r.fm_fp - e.fm_fp < 0))).filterMap
    (fun r => r.vals.lookup roi)

/-- The normalization branch of `pool_events` (`utilities.py` lines 86-93)
for one region value: when the pre-event standard deviation compares
strictly positive (equivalently, the sample variance exists and is
positive) the value is z-scored by the local mean and deviation; otherwise
(zero variance, or NaN deviation from fewer than two pre-event rows) the
region is zero-filled. -/
def normRoi (pre : List ℚ) (x : ℚ) : NormVal :=
  match sampleVar pre with
  | some v => if 0 < v then .scaled x (sampleMean pre) v else .val 0
  | none => .val 0

/-- One event window of `pool_events`: the window rows, each given its
frame offset, the event label and event frame, with region columns listed
in `rois` normalized from the pre-event baseline of this very window when
`norm` is set, other columns copied. -/
def windowTransform (data : List PoolRow) (evt_range : ℤ × ℤ)
    (rois : List String) (norm : Bool) (e : PoolRow) : List EvtRow :=
  let w := windowRows data evt_range e
  w.map (fun r =>
    { fm_fp := r.fm_fp
      fm_evt := r.fm_fp - e.fm_fp
      event := e.event.getD ""
      evt_fm := e.fm_fp
      vals := r.vals.map (fun rv =>
        if norm && decide (rv.1 ∈ rois) then
          (rv.1, normRoi (preVals w e rv.1) rv.2)
        else
          (rv.1, NormVal.val rv.2)) })

/-- Model of `pool_events` (`utilities.py` lines 70-96): every master row
with a non-null event yields one window, and the windows are concatenated
in master order. -/
def pool_events (data : List PoolRow) (evt_range : ℤ × ℤ)
    (rois : List String) (norm : Bool) : List EvtRow :=
  (data.filter (fun r => r.event.isSome)).flatMap
    (windowTransform data evt_range rois norm)

/-- Event label used by the concrete examples. -/
def evStim : String := "stim"

/-- Region column name used by the concrete examples. -/
def roiSig : String := "sig"

/-- Concrete master table for the window-clipping example of the spec:
frames 94 to 102 with a single event at frame 100. -/
def exPoolData : List PoolRow :=
  [⟨94, none, []⟩, ⟨95, none, []⟩, ⟨96, none, []⟩, ⟨97, none, []⟩,
    ⟨98, none, []⟩, ⟨99, none, []⟩, ⟨100, some evStim, []⟩,
    ⟨101, none, []⟩, ⟨102, none, []⟩]

/-- Concrete master table for the normalization-guard example: an event on
the very first frame, so its window has no pre-event rows. -/
def exPoolData9 : List PoolRow :=
  [⟨0, some evStim, [(roiSig, 5)]⟩, ⟨1, none, [(roiSig, 7)]⟩,
    ⟨2, none, [(roiSig, 9)]⟩]

/-- The event row of `exPoolData9`: it sits on the first frame. -/
def exEvt9 : PoolRow :=
  ⟨0, some evStim, [(roiSig, 5)]⟩

/-- The first output row of the window of `exEvt9` with normalization on:
the pre-event portion is empty, so the region value is the zero fill. -/
def exEvtRow9 : EvtRow :=
  { fm_fp := 0, fm_evt := 0, event := evStim, evt_fm := 0,
    vals := [(roiSig, NormVal.val 0)] }

/-- The default light-source mapping installed by the `NPMProcess`
constructor (`oo_interface.py` line 88). -/
def defaultLedDict : List (ℤ × String) :=
  [(7, "initial"), (1, "415nm"), (2, "470nm"), (4, "560nm")]

/-- The dash replaced inside region names by `set_roi_names`. -/
def dashStr : String := "-"

/-- The underscore substituted for dashes by `set_roi_names`. -/
def underscoreStr : String := "_"

/-- The figure file written by a successful `NPMProcess.load_data`. -/
def rawSignalsFile : String := "raw_signals.html"

/-- The state of an `NPMProcess` object (`oo_interface.py` lines 83-96)
restricted to the fields `load_data` consults.  `param_led_dict` is not
optional, exactly as in the Python class: the constructor assigns the
default mapping and no method of the class ever reassigns the attribute,
so a state with the light-source mapping missing is not constructible. -/
structure NPMState where
  data : Option (List SampleRow)
  param_nfm_discard : Option ℤ
  param_led_dict : List (ℤ × String)
  param_roi_dict : Option (List (String × String))
deriving DecidableEq, Repr

/-- The state built by the `NPMProcess` constructor. -/
def initState : NPMState :=
  ⟨none, none, defaultLedDict, none⟩

/-- `set_data` with an explicit path, and the two upload callbacks: the raw
table is stored. -/
def set_data (s : NPMState) (d : List SampleRow) : NPMState :=
  { s with data := some d }

/-- `set_nfm_discard` with an explicit value, and the slider callback
`on_nfm`: the discard count is stored. -/
def set_nfm_discard (s : NPMState) (n : ℤ) : NPMState :=
  { s with param_nfm_discard := some n }

/-- `set_roi` with an explicit mapping, and the selector callback `on_roi`
(which stores the identity mapping on the chosen columns). -/
def set_roi (s : NPMState) (m : List (String × String)) : NPMState :=
  { s with param_roi_dict := some m }

/-- `set_roi_names` with an explicit mapping: region names have dashes
replaced by underscores.  When no roi mapping was set the method hits its
assert and the state is unchanged. -/
def set_roi_names (s : NPMState) (m : List (String × String)) : NPMState :=
  match s.param_roi_dict with
  | none => s
  | some _ =>
    let renamed := m.map (fun p => (p.1, String.replace p.2 dashStr underscoreStr))
    { s with param_roi_dict := some renamed }

/-- States reachable through the `NPMProcess` interface: the constructor
followed by any sequence of the mutators above.  The remaining methods
(`set_pk_prominence`, `set_baseline`, the path setters) never assign the
four modelled fields. -/
inductive Reachable : NPMState → Prop
  | start : Reachable initState
  | stepData (s : NPMState) (d : List SampleRow) :
      Reachable s → Reachable (set_data s d)
  | stepNfm (s : NPMState) (n : ℤ) :
      Reachable s → Reachable (set_nfm_discard s n)
  | stepRoi (s : NPMState) (m : List (String × String)) :
      Reachable s → Reachable (set_roi s m)
  | stepRoiNames (s : NPMState) (m : List (String × String)) :
      Reachable s → Reachable (set_roi_names s m)

/-- The configuration failures of `NPMProcess.load_data`: its three asserts
(data, roi mapping, discard count), which the spec files under
ConfigurationError. -/
inductive ConfigError
  | dataNotSet
  | roiNotSet
  | nfmNotSet
deriving DecidableEq, Repr

/-- Model of `NPMProcess.load_data` (`oo_interface.py` lines 204-217).  The
three asserts run before anything else, in source order, so a failed assert
aborts the call with nothing written; on success the long-form table
produced by `load_data` is stored on the object and the raw-signals figure
file is written.  The first component is the assigned table or the abort
error; the second lists the files written during the call. -/
def npm_load_data (s : NPMState) :
    Except ConfigError (List TaggedRow) × List String :=
  match s.data with
  | none => (.error .dataNotSet, [])
  | some d =>
    match s.param_roi_dict with
    | none => (.error .roiNotSet, [])
    | some _ =>
      match s.param_nfm_discard with
      | none => (.error .nfmNotSet, [])
      | some nfm =>
        (.ok (load_data d nfm s.param_led_dict), [rawSignalsFile])

/-- One row of the corrected long-form table consumed by `find_pks`
(`processing.py` lines 115-128): the signal label and the value columns
(regions plus any added peak columns) as an association list. -/
structure PkRow where
  signal : String
  cols : List (String × ℚ)
deriving DecidableEq, Repr

/-- The pandas error raised when reading a column absent from a frame. -/
inductive PdError
  | keyError (col : String)
deriving DecidableEq, Repr

/-- The suffix of the boolean peak-indicator columns added by `find_pks`. -/
def pksSuffix : String := "-pks"

/-- Read one column of a frame: the values in row order, or the KeyError
pandas raises when a row lacks the column. -/
def readCol (rows : List PkRow) (c : String) : Except PdError (List ℚ) :=
  match rows.mapM (fun r => r.cols.lookup c) with
  | some vs => .ok vs
  | none => .error (.keyError c)

/-- Overwrite a column value on one row, or append the column when new. -/
def setCol (cols : List (String × ℚ)) (c : String) (v : ℚ) :
    List (String × ℚ) :=
  if (cols.lookup c).isSome then
    cols.map (fun p => if p.1 == c then (c, v) else p)
  else
    cols ++ [(c, v)]

/-- The in-place assignment `data.loc[dat_sig.index, col] = pvec`: rows of
the selected signal group receive the values positionally; rows of other
signals are untouched (pandas enlarges them with NaN entries no claim ever
reads back). -/
def setGroupCol : List PkRow → String → String → List ℚ → List PkRow
  | [], _, _, _ => []
  | r :: rest, sig, c, vals =>
    if r.signal == sig then
      match vals with
      | [] => r :: setGroupCol rest sig c []
      | v :: vtl => { r with cols := setCol r.cols c v } ::
          setGroupCol rest sig c vtl
    else
      r :: setGroupCol rest sig c vals

/-- The indicator vector `pvec`: zeros of the group length with ones at the
peak indices returned by the peak search. -/
def pvecOf (n : ℕ) (pks : List ℕ) : List ℚ :=
  (List.range n).map (fun i => if pks.contains i then (1 : ℚ) else 0)

/-- One iteration of the roi loop of `find_pks` for a selected signal
group.  `dat_sig` is the group copy materialized by the `groupby` iteration
from the pre-loop frame; `data` is the live table the loop mutates.  The
roi trace is read from the copy, peaks are found (`scipy.find_peaks` is the
oracle `pf`, already applied to the prominence), and the indicator column
is written onto the live table.  When a rolling width is given, the code
then reads the just-created indicator column from the stale group copy,
which does not have it, so pandas raises a KeyError; had the read
succeeded, the rolling sum would be assigned onto that same discarded copy
and the live table would still gain no frequency column. -/
def find_pks_roi (pf : List ℚ → List ℕ) (freq_wd : Option ℕ) (sig : String)
    (dat_sig : List PkRow) (data : List PkRow) (roi : String) :
    Except PdError (List PkRow) :=
  match readCol dat_sig roi with
  | .error e => .error e
  | .ok dat =>
    let pvec := pvecOf dat.length (pf dat)
    let data2 := setGroupCol data sig (roi ++ pksSuffix) pvec
    match freq_wd with
    | none => .ok data2
    | some _ =>
      match readCol dat_sig (roi ++ pksSuffix) with
      | .error e => .error e
      | .ok _ => .ok data2

/-- The roi loop of `find_pks` over one selected signal group. -/
def find_pks_rois (pf : List ℚ → List ℕ) (freq_wd : Option ℕ) (sig : String)
    (dat_sig : List PkRow) : List String → List PkRow →
    Except PdError (List PkRow)
  | [], data => .ok data
  | roi :: rest, data =>
    match find_pks_roi pf freq_wd sig dat_sig data roi with
    | .error e => .error e
    | .ok data2 => find_pks_rois pf freq_wd sig dat_sig rest data2

/-- The signal-group loop of `find_pks`: each group of the pre-loop frame
`data0` is visited; a group enters the body only when a channel filter was
given and names it (`sigs is not None and sig in sigs`). -/
def find_pks_sigs (pf : List ℚ → List ℕ) (rois : List String)
    (freq_wd : Option ℕ) (sigs : Option (List String)) (data0 : List PkRow) :
    List String → List PkRow → Except PdError (List PkRow)
  | [], data => .ok data
  | sig :: more, data =>
    let selected :=
      match sigs with
      | some ss => ss.contains sig
      | none => false
    if selected then
      match find_pks_rois pf freq_wd sig
          (data0.filter (fun r => r.signal == sig)) rois data with
      | .error e => .error e
      | .ok data2 => find_pks_sigs pf rois freq_wd sigs data0 more data2
    else
      find_pks_sigs pf rois freq_wd sigs data0 more data

/-- Model of `find_pks` (`processing.py` lines 115-128): iterate the signal
groups of the input table (the `groupby` keys), mutating the table in
place, and return it; any pandas error propagates to the caller and nothing
is returned.  The peak oracle `pf` stands for `scipy.signal.find_peaks`
with the prominence argument already applied. -/
def find_pks (pf : List ℚ → List ℕ) (data : List PkRow) (rois : List String)
    (freq_wd : Option ℕ) (sigs : Option (List String)) :
    Except PdError (List PkRow) :=
  find_pks_sigs pf rois freq_wd sigs data ((data.map PkRow.signal).dedup) data

/-- The z-scored 470nm channel label, the channel filter used by the
`NPMProcess.find_peaks` wrapper. -/
def sig470zs : String := "470nm-norm-zs"

/-- Concrete corrected table for the rolling-frequency failure: one signal
group of three frames of one region. -/
def exPkData : List PkRow :=
  [⟨sig470zs, [(roiSig, 1)]⟩, ⟨sig470zs, [(roiSig, 5)]⟩,
    ⟨sig470zs, [(roiSig, 1)]⟩]

/-- C1: `load_ts` classifies a two-column source by the post-coercion dtypes
of its columns: (text, real) is a keydown event log, (integer, real) is the
behavior-frame timestamp log `ts_behav`, (integer, text-or-boolean) is a
behavior-frame event log; a five-column source (optional DigitalIOName
header row stripped) is a hardware digital-IO event log; a source with any
other column count raises the unrecognized-format error and is never
classified. -/
theorem load_ts_classification (src : TsSource) :
    (src.dtypes = [.objD, .floatD] → load_ts src = .ok ⟨tyKeydown, false⟩) ∧
    (src.dtypes = [.intD, .floatD] → load_ts src = .ok ⟨tyBehav, false⟩) ∧
    (∀ c1 : Dtype, (c1 = .objD ∨ c1 = .boolD) → src.dtypes = [.intD, c1] →
      load_ts src = .ok ⟨tyEvents, false⟩) ∧
    (src.dtypes.length = 5 →
      load_ts src = .ok ⟨tyArduino, src.firstCellDigital⟩) ∧
    (src.dtypes.length ≠ 2 → src.dtypes.length ≠ 5 →
      load_ts src = .error .unrecognizedFormat) := by
  obtain ⟨ds, hc⟩ := src
  refine ⟨?_, ?_, ?_, ?_, ?_⟩
  · intro h
    have h2 : ds = [Dtype.objD, Dtype.floatD] := h
    subst h2
    rfl
  · intro h
    have h2 : ds = [Dtype.intD, Dtype.floatD] := h
    subst h2
    rfl
  · rintro c1 hc1 h
    have h2 : ds = [Dtype.intD, c1] := h
    subst h2
    rcases hc1 with rfl | rfl <;> rfl
  · intro h
    match ds, h with
    | [a, b, c, d, e], _ => rfl
  · intro h2 h5
    match ds, h2, h5 with
    | [], _, _ => rfl
    | [a], _, _ => rfl
    | [a, b], h2, _ => exact absurd rfl h2
    | [a, b, c], _, _ => rfl
    | [a, b, c, d], _, _ => rfl
    | [a, b, c, d, e], _, h5 => exact absurd rfl h5
    | a :: b :: c :: d :: e :: f :: rest, _, _ => rfl

/-- Concrete check of `load_ts_classification`: a (text, real) source is a
keydown log, a (integer, real) source is the behavior-timestamp log, a
five-column source with the header row is a digital-IO log with the header
stripped, and a one-column source fails. -/
theorem load_ts_classification_witness :
    load_ts ⟨[.objD, .floatD], false⟩ = .ok ⟨tyKeydown, false⟩ ∧
    load_ts ⟨[.intD, .floatD], false⟩ = .ok ⟨tyBehav, false⟩ ∧
    load_ts ⟨[.intD, .boolD], false⟩ = .ok ⟨tyEvents, false⟩ ∧
    load_ts ⟨[.objD, .objD, .objD, .objD, .objD], true⟩ =
      .ok ⟨tyArduino, true⟩ ∧
    load_ts ⟨[.floatD], false⟩ = .error .unrecognizedFormat := by
  refine ⟨?_, ?_, ?_, ?_, ?_⟩
  · exact (load_ts_classification ⟨[.objD, .floatD], false⟩).1 rfl
  · exact (load_ts_classification ⟨[.intD, .floatD], false⟩).2.1 rfl
  · exact (load_ts_classification ⟨[.intD, .boolD], false⟩).2.2.1 .boolD
      (Or.inr rfl) rfl
  · exact (load_ts_classification
      ⟨[.objD, .objD, .objD, .objD, .objD], true⟩).2.2.2.1 rfl
  · exact (load_ts_classification ⟨[.floatD], false⟩).2.2.2.2
      (by decide) (by decide)

/-- Key membership after appending one binding to an association list. -/
theorem lookup_append_isSome (acc : List (String × String)) (k q v : String) :
    ((acc ++ [(q, v)]).lookup k).isSome =
      ((acc.lookup k).isSome || (k == q)) := by
  induction acc with
  | nil =>
    cases h : (k == q) <;> simp [List.lookup, h]
  | cons a rest ih =>
    obtain ⟨a1, a2⟩ := a
    cases h : (k == a1) <;> simp [List.lookup, h, ih]

/-- Unfolding `countClassified` over the head of the source list. -/
theorem countClassified_cons (dname : String) (src : TsSource)
    (rest : List (String × TsSource)) (t : String) :
    countClassified ((dname, src) :: rest) t =
      countClassified rest t + countOne src t := by
  simp only [countClassified, countOne, List.filter_cons]
  cases hl : load_ts src with
  | ok loaded =>
    by_cases ht : loaded.tsType = t
    · simp [hl, beq_iff_eq.mpr ht, ht, Nat.add_comm]
    · simp [hl, beq_eq_false_iff_ne.mpr ht, ht]
  | error e => simp [hl]

/-- The canonical-key indicator can only grow when a binding is appended,
and grows to exactly one when the appended key is the inspected one. -/
theorem keyInd_append (acc : List (String × String)) (k q v : String) :
    keyInd (acc ++ [(q, v)]) k =
      (if k = q then 1 else keyInd acc k) := by
  simp only [keyInd, lookup_append_isSome]
  by_cases hkq : k = q
  · simp [beq_iff_eq.mpr hkq, hkq]
  · rw [beq_eq_false_iff_ne.mpr hkq, Bool.or_false, if_neg hkq]

/-- If every source loads and at most one source resolves to each canonical
tag, counting sources already stored in the accumulator, the classification
loop of `align_ts` completes without raising. -/
theorem classify_sources_ok (srcs : List (String × TsSource)) :
    ∀ acc : List (String × String),
    (∀ p ∈ srcs, loadsOk p.2 = true) →
    (∀ p ∈ srcs, p.1 ≠ tyBehav ∧ p.1 ≠ tyFp) →
    countClassified srcs tyBehav + keyInd acc tyBehav ≤ 1 →
    countClassified srcs tyFp + keyInd acc tyFp ≤ 1 →
    ∃ d, classify_sources srcs acc = .ok d := by
  induction srcs with
  | nil =>
    intro acc _ _ _ _
    exact ⟨acc, rfl⟩
  | cons p rest ih =>
    intro acc hok hname hb hf
    obtain ⟨dname, src⟩ := p
    have hpok : loadsOk src = true := hok (dname, src) (List.mem_cons_self _ _)
    cases hl : load_ts src with
    | error e =>
      rw [loadsOk, hl] at hpok
      exact absurd hpok (by simp)
    | ok loaded =>
      rw [countClassified_cons] at hb hf
      have hcone : ∀ u : String, countOne src u =
          (if loaded.tsType = u then 1 else 0) := by
        intro u
        rw [countOne, hl]
      rw [hcone] at hb hf
      have hok2 : ∀ p ∈ rest, loadsOk p.2 = true :=
        fun p hp => hok p (List.mem_cons_of_mem _ hp)
      have hname2 : ∀ p ∈ rest, p.1 ≠ tyBehav ∧ p.1 ≠ tyFp :=
        fun p hp => hname p (List.mem_cons_of_mem _ hp)
      show ∃ d, classify_sources ((dname, src) :: rest) acc = .ok d
      unfold classify_sources
      rw [hl]
      dsimp only
      by_cases hcan : loaded.tsType = tyBehav ∨ loaded.tsType = tyFp
      · rw [if_pos hcan]
        rcases hcan with hcb | hcf
        · rw [if_pos hcb] at hb
          have hfne : loaded.tsType ≠ tyFp := by
            rw [hcb]
            decide
          rw [if_neg hfne] at hf
          have hind : keyInd acc tyBehav = 0 := by omega
          have hsome : ((acc.lookup tyBehav).isSome : Bool) = false := by
            rw [keyInd] at hind
            by_cases hs : (acc.lookup tyBehav).isSome <;> simp [hs] at hind ⊢
          rw [hcb, hsome]
          simp only [Bool.false_eq_true, if_false]
          apply ih
          · exact hok2
          · exact hname2
          · rw [keyInd_append, if_pos rfl]
            omega
          · rw [keyInd_append, if_neg (by decide : tyFp ≠ tyBehav)]
            omega
        · rw [if_pos hcf] at hf
          have hbne : loaded.tsType ≠ tyBehav := by
            rw [hcf]
            decide
          rw [if_neg hbne] at hb
          have hind : keyInd acc tyFp = 0 := by omega
          have hsome : ((acc.lookup tyFp).isSome : Bool) = false := by
            rw [keyInd] at hind
            by_cases hs : (acc.lookup tyFp).isSome <;> simp [hs] at hind ⊢
          rw [hcf, hsome]
          simp only [Bool.false_eq_true, if_false]
          apply ih
          · exact hok2
          · exact hname2
          · rw [keyInd_append, if_neg (by decide : tyBehav ≠ tyFp)]
            omega
          · rw [keyInd_append, if_pos rfl]
            omega
      · rw [if_neg hcan]
        push_neg at hcan
        rw [if_neg hcan.1] at hb
        rw [if_neg hcan.2] at hf
        apply ih
        · exact hok2
        · exact hname2
        · rw [keyInd_append,
            if_neg (Ne.symm (hname (dname, src) (List.mem_cons_self _ _)).1)]
          omega
        · rw [keyInd_append,
            if_neg (Ne.symm (hname (dname, src) (List.mem_cons_self _ _)).2)]
          omega

/-- If the sources classified with a canonical tag, together with an already
stored binding for that tag, number at least two, the classification loop of
`align_ts` raises the Multiple-supplied ValueError. -/
theorem classify_sources_dup (t : String) (ht : t = tyBehav ∨ t = tyFp)
    (srcs : List (String × TsSource)) :
    ∀ acc : List (String × String),
    (∀ p ∈ srcs, loadsOk p.2 = true) →
    2 ≤ countClassified srcs t + keyInd acc t →
    ∃ u, classify_sources srcs acc = .error (.multipleCanonical u) := by
  induction srcs with
  | nil =>
    intro acc _ h2
    have h0 : countClassified [] t = 0 := rfl
    have h1 : keyInd acc t ≤ 1 := by
      rw [keyInd]
      by_cases hs : (acc.lookup t).isSome <;> simp [hs]
    omega
  | cons p rest ih =>
    intro acc hok h2
    obtain ⟨dname, src⟩ := p
    have hpok : loadsOk src = true := hok (dname, src) (List.mem_cons_self _ _)
    cases hl : load_ts src with
    | error e =>
      rw [loadsOk, hl] at hpok
      exact absurd hpok (by simp)
    | ok loaded =>
      rw [countClassified_cons] at h2
      have hcone : countOne src t = (if loaded.tsType = t then 1 else 0) := by
        rw [countOne, hl]
      rw [hcone] at h2
      have hok2 : ∀ p ∈ rest, loadsOk p.2 = true :=
        fun p hp => hok p (List.mem_cons_of_mem _ hp)
      show ∃ u, classify_sources ((dname, src) :: rest) acc =
        .error (.multipleCanonical u)
      unfold classify_sources
      rw [hl]
      dsimp only
      by_cases hcan : loaded.tsType = tyBehav ∨ loaded.tsType = tyFp
      · rw [if_pos hcan]
        by_cases hdup : (acc.lookup loaded.tsType).isSome
        · rw [if_pos hdup]
          exact ⟨loaded.tsType, rfl⟩
        · rw [if_neg hdup]
          apply ih _ hok2
          by_cases hteq : loaded.tsType = t
          · rw [if_pos hteq] at h2
            have hind : keyInd acc t = 0 := by
              rw [keyInd, ← hteq]
              simp [hdup]
            rw [keyInd_append, if_pos hteq.symm]
            omega
          · rw [if_neg hteq] at h2
            rw [keyInd_append, if_neg (Ne.symm hteq)]
            omega
      · rw [if_neg hcan]
        push_neg at hcan
        apply ih _ hok2
        have hne : loaded.tsType ≠ t := by
          rcases ht with rfl | rfl
          · exact hcan.1
          · exact hcan.2
        rw [if_neg hne] at h2
        rw [keyInd_append]
        by_cases htd : t = dname
        · rw [if_pos htd]
          have h1 : keyInd acc t ≤ 1 := by
            rw [keyInd]
            by_cases hs : (acc.lookup t).isSome <;> simp [hs]
          omega
        · rw [if_neg htd]
          omega

/-- C2 counterexample: the claim that `align_ts` does not raise the
duplicate-canonical-clock error when at most one source classifies as each
canonical type is false.  Here only one source is classified `ts_behav`
(the other is a keydown log), but because the keydown source is named
`ts_behav` it is stored in `ts_dict` under that key, and the genuinely
behavioral source then trips the Multiple-ts_behav ValueError. -/
theorem align_canonical_collision_counterexample :
    countClassified
      [(tyBehav, ⟨[.objD, .floatD], false⟩),
        ("beh", ⟨[.intD, .floatD], false⟩)] tyBehav = 1 ∧
    countClassified
      [(tyBehav, ⟨[.objD, .floatD], false⟩),
        ("beh", ⟨[.intD, .floatD], false⟩)] tyFp = 0 ∧
    classify_sources
      [(tyBehav, ⟨[.objD, .floatD], false⟩),
        ("beh", ⟨[.intD, .floatD], false⟩)] [] =
      .error (.multipleCanonical tyBehav) := by
  refine ⟨rfl, rfl, rfl⟩

/-- C2 (amended): in the classification loop of `align_ts` (which runs
before any merging, so an error aborts with no partial merge), if every
source loads and no source is named `ts_behav` or `ts_fp`, then two sources
classified as the canonical behavior-timestamp type or two classified as
the canonical frame-timestamp type raise the hard duplicate error, and with
at most one of each the loop does not raise.  The amendment: the original
claim is falsified by a source whose name collides with a canonical type
tag (see the counterexample); barring such names it holds. -/
theorem align_ts_canonical_unique (srcs : List (String × TsSource))
    (hok : ∀ p ∈ srcs, loadsOk p.2 = true)
    (hname : ∀ p ∈ srcs, p.1 ≠ tyBehav ∧ p.1 ≠ tyFp) :
    ((2 ≤ countClassified srcs tyBehav ∨ 2 ≤ countClassified srcs tyFp) →
      ∃ u, classify_sources srcs [] = .error (.multipleCanonical u)) ∧
    (countClassified srcs tyBehav ≤ 1 → countClassified srcs tyFp ≤ 1 →
      ∃ d, classify_sources srcs [] = .ok d) := by
  constructor
  · rintro (h | h)
    · exact classify_sources_dup tyBehav (Or.inl rfl) srcs [] hok
        (by simpa [keyInd, List.lookup] using h)
    · exact classify_sources_dup tyFp (Or.inr rfl) srcs [] hok
        (by simpa [keyInd, List.lookup] using h)
  · intro hb hf
    exact classify_sources_ok srcs [] hok hname
      (by simpa [keyInd, List.lookup] using hb)
      (by simpa [keyInd, List.lookup] using hf)

/-- Concrete check of `align_ts_canonical_unique`: one keydown source and
one behavioral source, under distinct ordinary names, classify without
raising. -/
theorem align_ts_canonical_unique_witness :
    ∃ d, classify_sources
      [("key1", ⟨[.objD, .floatD], false⟩),
        ("beh1", ⟨[.intD, .floatD], false⟩)] [] = .ok d :=
  (align_ts_canonical_unique
    [("key1", ⟨[.objD, .floatD], false⟩),
      ("beh1", ⟨[.intD, .floatD], false⟩)]
    (by decide) (by decide)).2 (by decide) (by decide)

/-- C3: `fit_exp2` computes its initial parameters as
(r, -10, r, 0.1, dmin - r) where dmax and dmin are the medians of the first
and last 50 samples and r = dmax - dmin; when the biexponential fit fails
it emits the warning and returns the curve evaluated at those initial
parameters (the function still returns a trace, so no exception reaches the
caller), and when the fit succeeds it returns the curve evaluated at the
fitted parameters. -/
theorem fit_exp2_fallback (expf : ℚ → ℚ)
    (curve_fit : FitParams → Option FitParams) (a x : List ℚ) :
    fit_p0 a = (median (a.take 50) - median (a.drop (a.length - 50)), -10,
      median (a.take 50) - median (a.drop (a.length - 50)), 1/10,
      median (a.drop (a.length - 50)) -
        (median (a.take 50) - median (a.drop (a.length - 50)))) ∧
    (curve_fit (fit_p0 a) = none →
      fit_exp2 expf curve_fit a x =
        ([fitFailWarning], exp2_curve expf (fit_p0 a) x)) ∧
    (∀ popt : FitParams, curve_fit (fit_p0 a) = some popt →
      fit_exp2 expf curve_fit a x = ([], exp2_curve expf popt x)) := by
  refine ⟨rfl, ?_, ?_⟩
  · intro h
    unfold fit_exp2
    dsimp only
    rw [h]
  · intro popt h
    unfold fit_exp2
    dsimp only
    rw [h]

/-- Concrete check of `fit_exp2_fallback`: on the trace [2] the initial
guess is (0, -10, 0, 1/10, 2), and with a failing fit oracle the result is
the warning together with the initial-guess curve, here the constant 2 on a
two-point grid. -/
theorem fit_exp2_fallback_witness :
    fit_exp2 (fun q => q) (fun _ => none) [2] [0, 1] =
      ([fitFailWarning], [2, 2]) := by
  have h := (fit_exp2_fallback (fun q => q) (fun _ => none)
    [2] [0, 1]).2.1 rfl
  rw [h]
  norm_num [exp2_curve, exp2, fit_p0, median, sortQ, List.insertionSort,
    List.orderedInsert, List.take, List.drop, List.getD]

/-- A successful association-list lookup returns one of the stored values. -/
theorem lookup_mem_values (d : List (ℤ × String)) (k : ℤ) (v : String)
    (h : d.lookup k = some v) : v ∈ d.map Prod.snd := by
  induction d with
  | nil => simp [List.lookup] at h
  | cons a rest ih =>
    obtain ⟨a1, a2⟩ := a
    rw [List.lookup] at h
    cases hk : (k == a1) with
    | true =>
      rw [hk] at h
      simp only [Option.some.injEq] at h
      subst h
      exact List.mem_cons_self _ _
    | false =>
      rw [hk] at h
      exact List.mem_cons_of_mem _ (ih h)

/-- Membership in the output of `cut_df` implies membership in its input. -/
theorem mem_of_mem_cut_df (df : List TaggedRow) (nrow : ℕ) (p : TaggedRow)
    (h : p ∈ cut_df df nrow) : p ∈ df :=
  (List.mem_insertionSort tsLe).mp (List.take_subset nrow _ h)

/-- Rows of a signal group carry that label. -/
theorem sigGroup_label (rows : List SampleRow) (discard_nfm : ℤ)
    (led_dict : List (ℤ × String)) (l : String) (p : TaggedRow)
    (h : p ∈ sigGroup rows discard_nfm led_dict l) : p.2 = l := by
  have := List.of_mem_filter h
  simpa using this

/-- The running minimum over a list is at most every initial value and
every element. -/
theorem foldl_min_le (xs : List ℕ) : ∀ a : ℕ,
    xs.foldl min a ≤ a ∧ ∀ x ∈ xs, xs.foldl min a ≤ x := by
  induction xs with
  | nil => intro a; exact ⟨le_refl a, by simp⟩
  | cons b ys ih =>
    intro a
    have h := ih (min a b)
    refine ⟨le_trans h.1 (min_le_left a b), ?_⟩
    intro x hx
    rcases List.mem_cons.mp hx with rfl | hx2
    · exact le_trans h.1 (min_le_right a x)
    · exact h.2 x hx2

/-- `listMinNat` is a lower bound of the list members. -/
theorem listMinNat_le (l : List ℕ) (x : ℕ) (hx : x ∈ l) : listMinNat l ≤ x := by
  cases l with
  | nil => cases hx
  | cons y ys =>
    rw [listMinNat]
    rcases List.mem_cons.mp hx with rfl | hx2
    · exact (foldl_min_le ys x).1
    · exact (foldl_min_le ys y).2 x hx2

/-- Filtering a concatenation of label-homogeneous groups by one label
recovers exactly that group. -/
theorem filter_flatMap_groups (F : String → List TaggedRow)
    (hF : ∀ l : String, ∀ p ∈ F l, p.2 = l) :
    ∀ labels : List String, labels.Nodup → ∀ l ∈ labels,
      (labels.flatMap F).filter (fun p => p.2 == l) = F l := by
  intro labels
  induction labels with
  | nil => intro _ l hl; cases hl
  | cons a rest ih =>
    intro hnd l hl
    have hnd2 := hnd
    rw [List.nodup_cons] at hnd2
    rw [List.flatMap_cons, List.filter_append]
    rcases List.mem_cons.mp hl with rfl | hl2
    · have h1 : (F l).filter (fun p => p.2 == l) = F l := by
        apply List.filter_eq_self.mpr
        intro p hp
        exact beq_iff_eq.mpr (hF l p hp)
      have h2 : (rest.flatMap F).filter (fun p => p.2 == l) = [] := by
        apply List.filter_eq_nil_iff.mpr
        intro p hp
        obtain ⟨b, hb, hpb⟩ := List.mem_flatMap.mp hp
        have : p.2 = b := hF b p hpb
        simp only [this]
        intro hc
        exact hnd2.1 (beq_iff_eq.mp hc ▸ hb)
      rw [h1, h2, List.append_nil]
    · have hla : l ≠ a := by
        intro hc
        exact hnd2.1 (hc ▸ hl2)
      have h1 : (F a).filter (fun p => p.2 == l) = [] := by
        apply List.filter_eq_nil_iff.mpr
        intro p hp
        have : p.2 = a := hF a p hp
        simp only [this]
        intro hc
        exact hla (beq_iff_eq.mp hc).symm
      rw [h1, ih hnd2.2 l hl2, List.nil_append]

/-- Membership in `mappedRows` characterized: the underlying raw row passed
the discard filter and its light-source code maps to the carried label. -/
theorem mem_mappedRows (rows : List SampleRow) (discard_nfm : ℤ)
    (led_dict : List (ℤ × String)) (p : TaggedRow)
    (h : p ∈ mappedRows rows discard_nfm led_dict) :
    discard_nfm < p.1.frameCounter ∧
      led_dict.lookup p.1.ledState = some p.2 := by
  rw [mappedRows] at h
  obtain ⟨r, hr, hmap⟩ := List.mem_filterMap.mp h
  have hfc : discard_nfm < r.frameCounter := by
    have := List.of_mem_filter hr
    simpa using this
  cases hlk : led_dict.lookup r.ledState with
  | none =>
    rw [hlk] at hmap
    cases hmap
  | some s =>
    rw [hlk] at hmap
    simp only [Option.map_some', Option.some.injEq] at hmap
    subst hmap
    exact ⟨hfc, hlk⟩

/-- C4: for every raw input with at least one mapped row per label of the
light-source mapping, the labels present in `load_data` output are exactly
the mapped labels; every signal label keeps exactly `minGroupSize` rows,
the minimum pre-trim group size; within each label every retained row has a
device timestamp at most that of every dropped row of its group (the
earliest-acquired rows are retained); and every output row passed the
discard filter and carries a label actually produced by the mapping, so
rows with frame counter at most the discard count or with unmapped
light-source codes are absent. -/
theorem load_data_trim (rows : List SampleRow) (discard_nfm : ℤ)
    (led_dict : List (ℤ × String))
    (hcov : ∀ l ∈ led_dict.map Prod.snd,
      ∃ p ∈ mappedRows rows discard_nfm led_dict, p.2 = l) :
    (∀ l : String, l ∈ sigLabels rows discard_nfm led_dict ↔
      l ∈ led_dict.map Prod.snd) ∧
    (∀ l ∈ sigLabels rows discard_nfm led_dict,
      ((load_data rows discard_nfm led_dict).filter
        (fun p => p.2 == l)).length =
        minGroupSize rows discard_nfm led_dict) ∧
    (∀ l ∈ sigLabels rows discard_nfm led_dict,
      ∀ p ∈ (load_data rows discard_nfm led_dict).filter
        (fun p => p.2 == l),
      ∀ q ∈ sigGroup rows discard_nfm led_dict l,
        q ∉ (load_data rows discard_nfm led_dict).filter
          (fun p => p.2 == l) →
        p.1.systemTimestamp ≤ q.1.systemTimestamp) ∧
    (∀ p ∈ load_data rows discard_nfm led_dict,
      discard_nfm < p.1.frameCounter ∧
        led_dict.lookup p.1.ledState = some p.2) := by
  have hF : ∀ l : String,
      ∀ p ∈ cut_df (sigGroup rows discard_nfm led_dict l)
        (minGroupSize rows discard_nfm led_dict), p.2 = l :=
    fun l p hp => sigGroup_label rows discard_nfm led_dict l p
      (mem_of_mem_cut_df _ _ p hp)
  have hgrp : ∀ l ∈ sigLabels rows discard_nfm led_dict,
      (load_data rows discard_nfm led_dict).filter (fun p => p.2 == l) =
        cut_df (sigGroup rows discard_nfm led_dict l)
          (minGroupSize rows discard_nfm led_dict) := by
    intro l hl
    exact filter_flatMap_groups _ hF _ (List.nodup_dedup _) l hl
  have hmin : ∀ l ∈ sigLabels rows discard_nfm led_dict,
      minGroupSize rows discard_nfm led_dict ≤
        (sigGroup rows discard_nfm led_dict l).length := by
    intro l hl
    apply listMinNat_le
    exact List.mem_map_of_mem _ hl
  refine ⟨?_, ?_, ?_, ?_⟩
  · intro l
    constructor
    · intro hl
      obtain ⟨p, hp, hpl⟩ := List.mem_map.mp (List.mem_dedup.mp hl)
      have := (mem_mappedRows rows discard_nfm led_dict p hp).2
      exact hpl ▸ lookup_mem_values _ _ _ this
    · intro hl
      obtain ⟨p, hp, hpl⟩ := hcov l hl
      exact List.mem_dedup.mpr (hpl ▸ List.mem_map_of_mem _ hp)
  · intro l hl
    rw [hgrp l hl, cut_df, List.length_take, List.length_insertionSort]
    exact min_eq_left (hmin l hl)
  · intro l hl p hp q hq hqn
    rw [hgrp l hl] at hp hqn
    have hsorted : List.Sorted tsLe
        (List.insertionSort tsLe (sigGroup rows discard_nfm led_dict l)) :=
      List.sorted_insertionSort tsLe _
    set srt := List.insertionSort tsLe (sigGroup rows discard_nfm led_dict l)
      with hsrt
    set n := minGroupSize rows discard_nfm led_dict with hn
    have hqsrt : q ∈ srt := (List.mem_insertionSort tsLe).mpr hq
    have hsplit : srt.take n ++ srt.drop n = srt := List.take_append_drop n srt
    have hqdrop : q ∈ srt.drop n := by
      rcases List.mem_append.mp (hsplit ▸ hqsrt) with hin | hin
      · exact absurd hin hqn
      · exact hin
    have hpair : List.Pairwise tsLe (srt.take n ++ srt.drop n) := by
      rw [hsplit]
      exact hsorted
    exact (List.pairwise_append.mp hpair).2.2 p hp q hqdrop
  · intro p hp
    obtain ⟨l, hl, hpl⟩ := List.mem_flatMap.mp hp
    have hpg := mem_of_mem_cut_df _ _ p hpl
    exact mem_mappedRows rows discard_nfm led_dict p
      (List.mem_filter.mp hpg).1

/-- Concrete check of `load_data_trim`: two mapped codes, three surviving
rows (two on one label, one on the other), one row below the discard count
and one row with an unmapped code; the trimmed group of the first label has
exactly the minimum group size, here one row. -/
theorem load_data_trim_witness :
    ((load_data
        [⟨1, 0, 1⟩, ⟨2, 0, 1⟩, ⟨3, 0, 2⟩, ⟨0, 0, 1⟩, ⟨4, 0, 7⟩] 0
        [(1, "chanA"), (2, "chanB")]).filter
      (fun p => p.2 == "chanA")).length =
      minGroupSize
        [⟨1, 0, 1⟩, ⟨2, 0, 1⟩, ⟨3, 0, 2⟩, ⟨0, 0, 1⟩, ⟨4, 0, 7⟩] 0
        [(1, "chanA"), (2, "chanB")] :=
  (load_data_trim
    [⟨1, 0, 1⟩, ⟨2, 0, 1⟩, ⟨3, 0, 2⟩, ⟨0, 0, 1⟩, ⟨4, 0, 7⟩] 0
    [(1, "chanA"), (2, "chanB")] (by decide)).2.1 "chanA" (by decide)

/-- The nearest-time scan started from a current best row yields a row among
the candidates or the current best, no farther from the probe than the
current best and than every candidate. -/
theorem nearestStep_foldl_spec (t : ℚ) (rows : List MasterRow) :
    ∀ cur : MasterRow,
    ∃ m : MasterRow, rows.foldl (nearestStep t) (some cur) = some m ∧
      (m = cur ∨ m ∈ rows) ∧
      absQ (t - m.ts) ≤ absQ (t - cur.ts) ∧
      ∀ m2 ∈ rows, absQ (t - m.ts) ≤ absQ (t - m2.ts) := by
  induction rows with
  | nil =>
    intro cur
    exact ⟨cur, rfl, Or.inl rfl, le_refl _, by simp⟩
  | cons a l ih =>
    intro cur
    rw [List.foldl_cons]
    by_cases hlt : absQ (t - a.ts) < absQ (t - cur.ts)
    · rw [show nearestStep t (some cur) a = some a by
        rw [nearestStep, if_pos hlt]]
      obtain ⟨m, hm, hmem, hle, hall⟩ := ih a
      refine ⟨m, hm, ?_, le_trans hle (le_of_lt hlt), ?_⟩
      · rcases hmem with rfl | h2
        · exact Or.inr (List.mem_cons_self _ _)
        · exact Or.inr (List.mem_cons_of_mem _ h2)
      · intro m2 hm2
        rcases List.mem_cons.mp hm2 with rfl | h2
        · exact hle
        · exact hall m2 h2
    · rw [show nearestStep t (some cur) a = some cur by
        rw [nearestStep, if_neg hlt]]
      obtain ⟨m, hm, hmem, hle, hall⟩ := ih cur
      refine ⟨m, hm, ?_, hle, ?_⟩
      · rcases hmem with rfl | h2
        · exact Or.inl rfl
        · exact Or.inr (List.mem_cons_of_mem _ h2)
      · intro m2 hm2
        rcases List.mem_cons.mp hm2 with rfl | h2
        · exact le_trans hle (not_lt.mp hlt)
        · exact hall m2 h2

/-- On a nonempty master, `pickNearest` returns a master row minimizing the
time distance to the probe. -/
theorem pickNearest_spec (t : ℚ) (rows : List MasterRow) (hne : rows ≠ []) :
    ∃ m : MasterRow, pickNearest t rows = some m ∧ m ∈ rows ∧
      ∀ m2 ∈ rows, absQ (t - m.ts) ≤ absQ (t - m2.ts) := by
  cases rows with
  | nil => exact absurd rfl hne
  | cons a l =>
    rw [pickNearest, List.foldl_cons,
      show nearestStep t none a = some a from rfl]
    obtain ⟨m, hm, hmem, hle, hall⟩ := nearestStep_foldl_spec t l a
    refine ⟨m, hm, ?_, ?_⟩
    · rcases hmem with rfl | h2
      · exact List.mem_cons_self _ _
      · exact List.mem_cons_of_mem _ h2
    · intro m2 hm2
      rcases List.mem_cons.mp hm2 with rfl | h2
      · exact hle
      · exact hall m2 h2

/-- C5: when a behavior-timestamp source is supplied and the master table
has a device-timestamp column, the behavior-alignment step of `align_ts`
merges each behavior timestamp onto the master frame whose device timestamp
is nearest; in particular, for master device timestamps [0, 1, 2] at frames
[10, 11, 12], the behavior timestamp 0.9 is mapped to frame 11.  If the
master has no device-timestamp column, the behavior source is skipped with
a warning rather than merged. -/
theorem align_behav_nearest (data : MasterTable) (behav : List BehavRow) :
    (data.hasTs = false → align_behav data behav = none) ∧
    (data.hasTs = true → data.rows ≠ [] → ∀ b ∈ behav,
      ∃ m : MasterRow, m ∈ data.rows ∧
        (b, some m.fm_fp) ∈ (align_behav data behav).getD [] ∧
        ∀ m2 ∈ data.rows, absQ (b.ts - m.ts) ≤ absQ (b.ts - m2.ts)) ∧
    (align_behav ⟨[⟨10, 0⟩, ⟨11, 1⟩, ⟨12, 2⟩], true⟩ [⟨0, 9/10⟩] =
      some [(⟨0, 9/10⟩, some 11)]) := by
  refine ⟨?_, ?_, ?_⟩
  · intro h
    rw [align_behav, h]
    rfl
  · intro hts hne b hb
    obtain ⟨m, hm, hmem, hall⟩ := pickNearest_spec b.ts data.rows hne
    refine ⟨m, hmem, ?_, hall⟩
    rw [align_behav, hts, if_pos rfl, Option.getD_some]
    have : (b, ((pickNearest b.ts data.rows).map MasterRow.fm_fp)) ∈
        behav.map (fun b => (b, (pickNearest b.ts data.rows).map
          MasterRow.fm_fp)) :=
      List.mem_map_of_mem _ hb
    rwa [hm, Option.map_some'] at this
  · rw [align_behav, if_pos rfl]
    norm_num [pickNearest, List.foldl_cons, nearestStep, absQ]

/-- Concrete check of `align_behav_nearest` on the example of the claim:
master device timestamps [0, 1, 2] at frames [10, 11, 12], one behavior
timestamp 0.9; the nearest-frame guarantee is instantiated and the final
mapping sends 0.9 to frame 11. -/
theorem align_behav_nearest_witness :
    (∃ m : MasterRow,
      m ∈ ([⟨10, 0⟩, ⟨11, 1⟩, ⟨12, 2⟩] : List MasterRow) ∧
      ((⟨0, 9/10⟩ : BehavRow), some m.fm_fp) ∈
        (align_behav ⟨[⟨10, 0⟩, ⟨11, 1⟩, ⟨12, 2⟩], true⟩
          [⟨0, 9/10⟩]).getD [] ∧
      ∀ m2 ∈ ([⟨10, 0⟩, ⟨11, 1⟩, ⟨12, 2⟩] : List MasterRow),
        absQ ((⟨0, 9/10⟩ : BehavRow).ts - m.ts) ≤
          absQ ((⟨0, 9/10⟩ : BehavRow).ts - m2.ts)) ∧
    align_behav ⟨[⟨10, 0⟩, ⟨11, 1⟩, ⟨12, 2⟩], true⟩ [⟨0, 9/10⟩] =
      some [(⟨0, 9/10⟩, some 11)] := by
  constructor
  · exact (align_behav_nearest ⟨[⟨10, 0⟩, ⟨11, 1⟩, ⟨12, 2⟩], true⟩
      [⟨0, 9/10⟩]).2.1 rfl (List.cons_ne_nil _ _) _
      (List.mem_cons_self _ _)
  · exact (align_behav_nearest ⟨[⟨10, 0⟩, ⟨11, 1⟩, ⟨12, 2⟩], true⟩
      [⟨0, 9/10⟩]).2.2

/-- C6: for every event row of the master table, the extracted window
consists exactly of the master rows whose frame index lies between the
event frame plus each offset, both bounds clipped to [0, max frame]; each
window row carries `fm_evt` equal to its frame index minus the event frame;
every window row of an event appears in the `pool_events` output; and in
particular an event at frame 100 with offsets (-5, 5) and maximum frame 102
yields the window of frames 95 to 102 with `fm_evt` spanning -5 to 2. -/
theorem pool_events_window (data : List PoolRow) (evt_range : ℤ × ℤ)
    (rois : List String) (norm : Bool) (e : PoolRow) (he : e ∈ data)
    (hev : e.event.isSome = true) :
    (pool_events data evt_range rois norm =
      (data.filter (fun r => r.event.isSome)).flatMap
        (windowTransform data evt_range rois norm)) ∧
    (∀ r : PoolRow, r ∈ windowRows data evt_range e ↔
      (r ∈ data ∧
        clipz (e.fm_fp + evt_range.1) 0 (max_fm data) ≤ r.fm_fp ∧
        r.fm_fp ≤ clipz (e.fm_fp + evt_range.2) 0 (max_fm data))) ∧
    (∀ er ∈ windowTransform data evt_range rois norm e,
      er.fm_evt = er.fm_fp - e.fm_fp ∧ er.evt_fm = e.fm_fp) ∧
    (∀ er ∈ windowTransform data evt_range rois norm e,
      er ∈ pool_events data evt_range rois norm) ∧
    ((windowTransform exPoolData (-5, 5) [] false
        ⟨100, some evStim, []⟩).map EvtRow.fm_fp =
      [95, 96, 97, 98, 99, 100, 101, 102] ∧
      (windowTransform exPoolData (-5, 5) [] false
        ⟨100, some evStim, []⟩).map EvtRow.fm_evt =
      [-5, -4, -3, -2, -1, 0, 1, 2]) := by
  refine ⟨rfl, ?_, ?_, ?_, by decide⟩
  · intro r
    simp [windowRows, List.mem_filter, Bool.and_eq_true, decide_eq_true_iff]
  · intro er her
    rw [windowTransform] at her
    obtain ⟨r, hr, heq⟩ := List.mem_map.mp her
    subst heq
    exact ⟨rfl, rfl⟩
  · intro er her
    exact List.mem_flatMap.mpr ⟨e, List.mem_filter.mpr ⟨he, hev⟩, her⟩

/-- Concrete check of `pool_events_window` on the example of the claim: the
window of the event at frame 100 with offsets (-5, 5) over frames up to 102
has frames 95 to 102 and offsets -5 to 2. -/
theorem pool_events_window_witness :
    (windowTransform exPoolData (-5, 5) [] false
      ⟨100, some evStim, []⟩).map EvtRow.fm_fp =
      [95, 96, 97, 98, 99, 100, 101, 102] ∧
    (windowTransform exPoolData (-5, 5) [] false
      ⟨100, some evStim, []⟩).map EvtRow.fm_evt =
      [-5, -4, -3, -2, -1, 0, 1, 2] :=
  (pool_events_window exPoolData (-5, 5) [] false ⟨100, some evStim, []⟩
    (by decide) rfl).2.2.2.2

/-- C9: with normalization on, a region value of a window is z-scored (the
`scaled` form, whose divisor is the square root of the recorded variance)
only when the sample variance of the pre-event portion of that window
exists (at least two rows) and is strictly positive, so the divisor is a
positive number, never zero nor NaN; and whenever the pre-event portion has
fewer than two rows or zero variance, every value of that region in the
window is the zero fill. -/
theorem pool_events_norm_guard (data : List PoolRow) (evt_range : ℤ × ℤ)
    (rois : List String) (e : PoolRow) (roi : String) (hroi : roi ∈ rois) :
    (pool_events data evt_range rois true =
      (data.filter (fun r => r.event.isSome)).flatMap
        (windowTransform data evt_range rois true)) ∧
    (∀ er ∈ windowTransform data evt_range rois true e,
      ∀ x m v : ℚ, (roi, NormVal.scaled x m v) ∈ er.vals →
        0 < v ∧
        2 ≤ (preVals (windowRows data evt_range e) e roi).length ∧
        sampleVar (preVals (windowRows data evt_range e) e roi) = some v) ∧
    ((preVals (windowRows data evt_range e) e roi).length < 2 ∨
        sampleVar (preVals (windowRows data evt_range e) e roi) = some 0 →
      ∀ er ∈ windowTransform data evt_range rois true e,
        ∀ nv : NormVal, (roi, nv) ∈ er.vals → nv = NormVal.val 0) := by
  refine ⟨rfl, ?_, ?_⟩
  · intro er her x m v hmem
    rw [windowTransform] at her
    obtain ⟨r, hr, heq⟩ := List.mem_map.mp her
    subst heq
    obtain ⟨rv, hrv, hf⟩ := List.mem_map.mp hmem
    by_cases hin : rv.1 ∈ rois
    · rw [if_pos (by simp [hin] : (true && decide (rv.1 ∈ rois)) = true)]
        at hf
      rw [Prod.mk.injEq] at hf
      obtain ⟨hfst, hsnd⟩ := hf
      subst hfst
      cases hsv : sampleVar (preVals (windowRows data evt_range e) e rv.1)
        with
      | none =>
        rw [normRoi, hsv] at hsnd
        cases hsnd
      | some v2 =>
        rw [normRoi, hsv] at hsnd
        dsimp only at hsnd
        by_cases hpos : 0 < v2
        · rw [if_pos hpos] at hsnd
          rw [NormVal.scaled.injEq] at hsnd
          obtain ⟨h1, h2, h3⟩ := hsnd
          subst h3
          refine ⟨hpos, ?_, rfl⟩
          by_contra hlen
          rw [sampleVar, if_pos (by omega)] at hsv
          cases hsv
        · rw [if_neg hpos] at hsnd
          cases hsnd
    · rw [if_neg (by simp [hin] :
        ¬((true && decide (rv.1 ∈ rois)) = true))] at hf
      rw [Prod.mk.injEq] at hf
      exact absurd (hf.1 ▸ hroi) hin
  · intro hguard er her nv hmem
    rw [windowTransform] at her
    obtain ⟨r, hr, heq⟩ := List.mem_map.mp her
    subst heq
    obtain ⟨rv, hrv, hf⟩ := List.mem_map.mp hmem
    by_cases hin : rv.1 ∈ rois
    · rw [if_pos (by simp [hin] : (true && decide (rv.1 ∈ rois)) = true)]
        at hf
      rw [Prod.mk.injEq] at hf
      obtain ⟨hfst, hsnd⟩ := hf
      subst hfst
      rcases hguard with hlen | hvar
      · rw [normRoi, sampleVar, if_pos hlen] at hsnd
        exact hsnd.symm
      · rw [normRoi, hvar] at hsnd
        dsimp only at hsnd
        rw [if_neg (lt_irrefl (0 : ℚ))] at hsnd
        exact hsnd.symm
    · rw [if_neg (by simp [hin] :
        ¬((true && decide (rv.1 ∈ rois)) = true))] at hf
      rw [Prod.mk.injEq] at hf
      exact absurd (hf.1 ▸ hroi) hin

/-- Concrete check of `pool_events_norm_guard`: an event on the first frame
of the recording has an empty pre-event portion (fewer than two rows, NaN
deviation in pandas), so the value carried for the region in its own output
row is the zero fill. -/
theorem pool_events_norm_guard_witness :
    exEvtRow9 ∈ windowTransform exPoolData9 (0, 2) [roiSig] true exEvt9 ∧
    (roiSig, NormVal.val 0) ∈ exEvtRow9.vals ∧
    NormVal.val 0 = NormVal.val 0 := by
  refine ⟨by decide, by decide, ?_⟩
  exact (pool_events_norm_guard exPoolData9 (0, 2) [roiSig] exEvt9 roiSig
    (List.mem_cons_self _ _)).2.2 (Or.inl (by decide)) exEvtRow9 (by decide)
    (NormVal.val 0) (by decide)

/-- C7: in every state reachable through the `NPMProcess` interface, if the
region-rename mapping was never supplied the loading operation aborts with
a configuration error and writes nothing; and the light-source mapping can
never be missing: it is the constructor default in every reachable state,
so the missing-light-source-mapping case of the claim is unrealizable. -/
theorem npm_load_data_config_guard (s : NPMState) (hs : Reachable s) :
    (s.param_roi_dict = none →
      ∃ e : ConfigError, npm_load_data s = (.error e, [])) ∧
    s.param_led_dict = defaultLedDict := by
  constructor
  · intro hroi
    cases hd : s.data with
    | none => exact ⟨.dataNotSet, by simp [npm_load_data, hd]⟩
    | some d => exact ⟨.roiNotSet, by simp [npm_load_data, hd, hroi]⟩
  · induction hs with
    | start => rfl
    | stepData s2 d hs2 ih => exact ih
    | stepNfm s2 n hs2 ih => exact ih
    | stepRoi s2 m hs2 ih => exact ih
    | stepRoiNames s2 m hs2 ih =>
      cases hm : s2.param_roi_dict with
      | none => simpa [set_roi_names, hm] using ih
      | some m2 => simpa [set_roi_names, hm] using ih

/-- Concrete check of `npm_load_data_config_guard`: data and discard count
set but the region mapping never supplied; the call aborts with an error
and the written-files list is empty. -/
theorem npm_load_data_config_guard_witness :
    ∃ e : ConfigError,
      npm_load_data (set_nfm_discard (set_data initState []) 0) =
        (.error e, []) :=
  (npm_load_data_config_guard (set_nfm_discard (set_data initState []) 0)
    (Reachable.stepNfm _ 0 (Reachable.stepData _ [] Reachable.start))).1 rfl

/-- C10: with no channel filter (`sigs` None), the selection test
`sigs is not None and sig in sigs` fails for every signal group, so
`find_pks` adds no peak-indicator or rolling-frequency column and returns
the input table unchanged. -/
theorem find_pks_no_sigs (pf : List ℚ → List ℕ) (data : List PkRow)
    (rois : List String) (freq_wd : Option ℕ) :
    find_pks pf data rois freq_wd none = .ok data := by
  suffices h : ∀ sigs0 : List String, ∀ acc : List PkRow,
      find_pks_sigs pf rois freq_wd none data sigs0 acc = .ok acc by
    exact h _ data
  intro sigs0
  induction sigs0 with
  | nil => intro acc; rfl
  | cons a more ih =>
    intro acc
    rw [find_pks_sigs]
    exact ih acc

/-- C8: evaluating `find_pks` at a concrete table with a rolling width
supplied shows the failure: the roi loop writes the indicator column onto
the live table but then reads it back from the stale group copy, which
lacks it, so the call raises the KeyError for the indicator column and the
returned table never carries a rolling peak-count column. -/
theorem find_pks_freq_keyerror :
    find_pks (fun _ => []) exPkData [roiSig] (some 2) (some [sig470zs]) =
      .error (.keyError (roiSig ++ pksSuffix)) := by
  rfl

end FP
